import Mathlib

/-!
Verification of the VRP optimization engine (Bloc-Algorithmie).

Shallow embedding of the problem/solution data model, the construction
heuristic, the two metaheuristic drivers and the tabu bookkeeping, with
theorems settling the specification claims about them.

Conventions of the embedding:
* Python floats are modelled as integers (`Int`): every operation the
  embedded code performs on distances, times and costs is addition,
  subtraction, `max`, `min` or a comparison -- never division -- so an
  ordered commutative ring faithfully captures the arithmetic, and integer
  values keep concrete evaluation exact.
* Python dicts are modelled as association lists (`List (key × value)`),
  read through `List.lookup` with the dict's default.
* The distance oracle `VRPInstance.get_distance` (matrix lookup / Euclidean
  fallback) is modelled as an abstract field `dist : Nat → Nat → Int` of the
  instance; all claims treat distances as opaque values, as the code does.
* Randomness (`random.random`, `random.randint`, `random.sample`,
  `random.choices`) is modelled by explicit choice parameters threaded into
  the functions that consume it.
-/

namespace VRP

/-- Embedding of `VRPInstance` (src/vrp_instance.py): depot, fleet data,
demand / time-window / service-time dicts and the distance oracle. -/
structure VRPInstance where
  depot : Nat
  capacity : Int
  vehicle_count : Nat
  vehicle_capacities : List Int
  demands : List (Nat × Int)
  time_windows : List (Nat × Int × Int)
  service_times : List (Nat × Int)
  dist : Nat → Nat → Int

/-- Embedding of `VRPInstance.is_feasible_time_window`: nodes without a
configured window are always feasible; otherwise `early ≤ t ≤ late`. -/
def VRPInstance.is_feasible_time_window (inst : VRPInstance) (customer : Nat)
    (arrival_time : Int) : Bool :=
  match inst.time_windows.lookup customer with
  | none => true
  | some (early, late) => decide (early ≤ arrival_time) && decide (arrival_time ≤ late)

/-- Embedding of `VRPInstance.get_waiting_time`: `max(0, early - arrival)`,
zero for nodes without a window. -/
def VRPInstance.get_waiting_time (inst : VRPInstance) (customer : Nat)
    (arrival_time : Int) : Int :=
  match inst.time_windows.lookup customer with
  | none => 0
  | some (early, _) => max 0 (early - arrival_time)

/-- Embedding of `Solution` (src/solution.py): route lists plus the cached
metric fields that `calculate_cost` recomputes. The Python attribute
`instance` is named `instance?` here (`instance` is a Lean keyword). -/
structure Solution where
  instance? : Option VRPInstance
  routes : List (List Nat)
  total_cost : Int := 0
  total_distance : Int := 0
  total_time : Int := 0
  feasible : Bool := true
  violations : List String := []
  vehicle_loads : List Int := []
  route_distances : List Int := []
  route_times : List Int := []

/-- The accumulation loop of `Solution._calculate_route_metrics`
(lines 76-99): walk consecutive pairs, summing distance and computing the
arrival clock (waiting and service added for non-depot nodes) and load. -/
def routeMetricsAux (inst : VRPInstance) :
    Nat → List Nat → Int → Int → Int → Int × Int × Int
  | _, [], distance, current_time, load => (distance, current_time, load)
  | from_node, to_node :: rest, distance, current_time, load =>
    let travel_distance := inst.dist from_node to_node
    let distance' := distance + travel_distance
    let time' := current_time + travel_distance
    if to_node ≠ inst.depot then
      let time'' := time' + inst.get_waiting_time to_node time'
      let time''' := time'' + (inst.service_times.lookup to_node).getD 0
      let load' := load + (inst.demands.lookup to_node).getD 0
      routeMetricsAux inst to_node rest distance' time''' load'
    else
      routeMetricsAux inst to_node rest distance' time' load

/-- Embedding of `Solution._calculate_route_metrics`: returns
`(cost, distance, time, load)`; routes shorter than 2 nodes yield zeros,
and for the basic VRP `cost = distance`. -/
def VRPInstance.calculate_route_metrics (inst : VRPInstance) (route : List Nat) :
    Int × Int × Int × Int :=
  if route.length < 2 then (0, 0, 0, 0)
  else
    match route with
    | [] => (0, 0, 0, 0)
    | from_node :: rest =>
      let m := routeMetricsAux inst from_node rest 0 0 0
      (m.1, m.1, m.2.1, m.2.2)

/-- Embedding of `Solution.calculate_cost`: with no attached instance it
returns `0` and changes nothing; otherwise it rebuilds the per-route metric
lists and the totals from the route lists alone, and returns the total cost
(the updated solution models the mutated `self`). -/
def Solution.calculate_cost (s : Solution) : Solution × Int :=
  match s.instance? with
  | none => (s, 0)
  | some inst =>
    let metrics := s.routes.map fun route => inst.calculate_route_metrics route
    let total_cost := (metrics.map fun m => m.1).sum
    let total_distance := (metrics.map fun m => m.2.1).sum
    let total_time := (metrics.map fun m => m.2.2.1).sum
    ({ s with
        total_cost := total_cost
        total_distance := total_distance
        total_time := total_time
        route_distances := metrics.map fun m => m.2.1
        route_times := metrics.map fun m => m.2.2.1
        vehicle_loads := metrics.map fun m => m.2.2.2 },
      total_cost)

/-- The specification's cost formula for one route: the sum of
`distance(route[i], route[i+1])` over every consecutive pair. -/
def routePairsCost (inst : VRPInstance) (route : List Nat) : Int :=
  ((route.zip route.tail).map fun p => inst.dist p.1 p.2).sum

lemma routeMetricsAux_fst (inst : VRPInstance) :
    ∀ (rest : List Nat) (from_node : Nat) (d t : Int) (load : Int),
      (routeMetricsAux inst from_node rest d t load).1 =
        d + routePairsCost inst (from_node :: rest)
  | [], from_node, d, t, load => by
      simp [routeMetricsAux, routePairsCost]
  | to_node :: rest, from_node, d, t, load => by
      unfold routeMetricsAux
      by_cases h : to_node = inst.depot
      · rw [if_neg (by simp [h])]
        rw [routeMetricsAux_fst inst rest]
        simp only [routePairsCost, List.tail_cons, List.zip_cons_cons, List.map_cons,
          List.sum_cons]
        ring
      · rw [if_pos h]
        rw [routeMetricsAux_fst inst rest]
        simp only [routePairsCost, List.tail_cons, List.zip_cons_cons, List.map_cons,
          List.sum_cons]
        ring

lemma calculate_route_metrics_cost (inst : VRPInstance) (route : List Nat) :
    (inst.calculate_route_metrics route).1 = routePairsCost inst route := by
  unfold VRPInstance.calculate_route_metrics
  match route with
  | [] => simp [routePairsCost]
  | [x] => simp [routePairsCost]
  | a :: b :: rest =>
    simp only [List.length_cons]
    rw [if_neg (by omega)]
    simpa using routeMetricsAux_fst inst (b :: rest) a 0 0 0

/-- C5: `calculate_cost()` returns the sum over all routes of
`distance(route[i], route[i+1])` for every consecutive pair, and calling it
again on the (cache-updated) solution with unchanged routes returns the same
value: idempotence under repeated calls with no mutation in between. -/
theorem calculate_cost_spec (s : Solution) (inst : VRPInstance)
    (h : s.instance? = some inst) :
    s.calculate_cost.2 = (s.routes.map fun r => routePairsCost inst r).sum ∧
      s.calculate_cost.1.calculate_cost.2 = s.calculate_cost.2 := by
  constructor
  · simp only [Solution.calculate_cost, h, List.map_map]
    refine congrArg List.sum (List.map_congr_left fun r _ => ?_)
    exact calculate_route_metrics_cost inst r
  · simp [Solution.calculate_cost, h]

/-- A small concrete instance used by witnesses. -/
def exInst : VRPInstance where
  depot := 0
  capacity := 100
  vehicle_count := 2
  vehicle_capacities := [100, 100]
  demands := [(0, 0), (1, 3), (2, 4)]
  time_windows := []
  service_times := []
  dist := fun a b => (a : Int) + 2 * (b : Int)

/-- A concrete two-route solution over `exInst` used by witnesses. -/
def exSol : Solution where
  instance? := some exInst
  routes := [[0, 1, 0], [0, 2, 0]]

/-- Witness for C5 at a concrete two-route solution. -/
theorem calculate_cost_spec_witness :
    exSol.calculate_cost.2 = (exSol.routes.map fun r => routePairsCost exInst r).sum ∧
      exSol.calculate_cost.1.calculate_cost.2 = exSol.calculate_cost.2 :=
  calculate_cost_spec exSol exInst rfl

/-! ### Simulated Annealing (src/algorithms/simulated_annealing.py)

`SimulatedAnnealing.solve` is embedded at the level of solution costs: the
temperature schedule and the random draws only determine how many candidates
are evaluated and whether the Metropolis test accepts, so a run is a list of
events, one per inner iteration, carrying the candidate neighbor's computed
cost and the outcome of the comparison `random.random() < exp(-delta/T)`. -/

/-- The `(current_solution, best_solution)` costs carried through the SA loop. -/
structure SAState where
  current : Int
  best : Int

/-- One inner iteration of `SimulatedAnnealing.solve` (lines 66-82): accept
when `delta < 0` or the Metropolis draw succeeds; the best solution is
updated only inside the improving branch. -/
def saStep (s : SAState) (ev : Int × Bool) : SAState :=
  let delta := ev.1 - s.current
  if delta < 0 then
    { current := ev.1, best := if ev.1 < s.best then ev.1 else s.best }
  else if ev.2 then
    { s with current := ev.1 }
  else
    s

/-- Embedding of `SimulatedAnnealing.solve`: start from a copy of the initial
solution with its cost recomputed, process every evaluated candidate in
order, and return the tracked best cost. -/
def saSolve (initial_cost : Int) (events : List (Int × Bool)) : SAState :=
  events.foldl saStep { current := initial_cost, best := initial_cost }

lemma saStep_best (s : SAState) (ev : Int × Bool) (hs : s.best ≤ s.current) :
    (saStep s ev).best = min s.best ev.1 ∧ (saStep s ev).best ≤ (saStep s ev).current := by
  unfold saStep
  rcases lt_trichotomy ev.1 s.current with h | h | h
  · rw [if_pos (by linarith)]
    by_cases hb : ev.1 < s.best
    · simp [hb, min_eq_right hb.le]
    · simp [hb, min_eq_left (le_of_not_lt hb), le_of_not_lt hb]
  · rw [if_neg (by simp [h])]
    have : min s.best ev.1 = s.best := min_eq_left (h ▸ hs)
    by_cases ha : ev.2 <;> simp [ha, this, hs, h ▸ hs]
  · rw [if_neg (by linarith)]
    have hbe : s.best ≤ ev.1 := le_of_lt (lt_of_le_of_lt hs h)
    by_cases ha : ev.2 <;> simp [ha, min_eq_left hbe, hs, hbe]

lemma saFold_best (events : List (Int × Bool)) :
    ∀ s : SAState, s.best ≤ s.current →
      (events.foldl saStep s).best = (events.map Prod.fst).foldl min s.best := by
  induction events with
  | nil => intro s _; rfl
  | cons ev rest ih =>
    intro s hs
    have h := saStep_best s ev hs
    simp only [List.foldl_cons, List.map_cons]
    rw [ih (saStep s ev) h.2, h.1]

/-- C1: for every initial cost and every run (any sequence of evaluated
candidates and acceptance draws), the best cost returned by
`SimulatedAnnealing.solve` equals the minimum of the initial cost and the
costs of all candidate neighbors evaluated during the run — best-cost
tracking is independent of acceptance. -/
theorem saSolve_best_is_min (initial_cost : Int) (events : List (Int × Bool)) :
    (saSolve initial_cost events).best = (events.map Prod.fst).foldl min initial_cost :=
  saFold_best events _ le_rfl

/-! ### Tabu Search (src/algorithms/tabu_search.py)

The tabu bookkeeping (`_is_tabu_move`, `_update_tabu_list`,
`_select_best_move`) is embedded exactly; the driver loop `TabuSearch.solve`
is embedded at the level of solution costs, with the sampled neighborhood of
each iteration supplied by an oracle `nbhds` (the neighborhoods are produced
by random sampling in `_generate_neighborhood`). -/

/-- A move record as built by the `_generate_*_moves` methods: the fields of
the Python `move_info` dicts. -/
inductive MoveInfo where
  | swap (customer1 customer2 route1 route2 : Nat)
  | relocate (customer from_route to_route from_pos to_pos : Nat)
  | twoOpt (route i j : Nat)
deriving DecidableEq

/-- A `tabu_data` entry as stored by `_update_tabu_list`: swap entries keep
only the two customers, relocate entries the customer and the route pair,
2-opt entries a full copy of the move record. -/
inductive TabuData where
  | swap (customer1 customer2 : Nat)
  | relocate (customer from_route to_route : Nat)
  | twoOpt (route i j : Nat)
deriving DecidableEq

/-- Embedding of `TabuSearch._is_tabu_move` (lines 269-294): entries of a
different kind are skipped; a swap matches on the unordered customer pair; a
relocate matches when the stored `from_route`/`to_route` equal the
candidate's `to_route`/`from_route`; any other kind falls through to
`False`. -/
def isTabuMove (tabu_list : List (TabuData × Nat)) (move : MoveInfo) : Bool :=
  tabu_list.any fun entry =>
    match move, entry.1 with
    | .swap c1 c2 _ _, .swap t1 t2 =>
      (t1 == c1 && t2 == c2) || (t1 == c2 && t2 == c1)
    | .relocate c f t _ _, .relocate tc tf tt =>
      tc == c && tf == t && tt == f
    | _, _ => false

/-- The inverse record pushed by `_update_tabu_list` (lines 299-311): swap
customers exchanged, relocate routes exchanged, 2-opt copied unchanged. -/
def invertMove (move : MoveInfo) : TabuData :=
  match move with
  | .swap c1 c2 _ _ => .swap c2 c1
  | .relocate c f t _ _ => .relocate c t f
  | .twoOpt r i j => .twoOpt r i j

/-- Embedding of `TabuSearch._update_tabu_list`: append the inverted move
tagged with the current iteration, then evict entries whose age reaches the
tabu tenure. -/
def updateTabuList (tenure : Nat) (tabu_list : List (TabuData × Nat))
    (move : MoveInfo) (iteration : Nat) : List (TabuData × Nat) :=
  (tabu_list ++ [(invertMove move, iteration)]).filter fun e =>
    decide ((iteration : Int) - (e.2 : Int) < (tenure : Int))

/-- One pass of the scan in `TabuSearch._select_best_move` (lines 249-265):
a neighbor replaces the running best when it is not tabu (or meets the
aspiration criterion `cost < best_known_cost`) and is strictly cheaper than
the best so far (`best_cost` starts at infinity, modelled by `none`). -/
def selectStep (tabu_list : List (TabuData × Nat)) (best_known_cost : Int)
    (acc : Option (Int × MoveInfo)) (nb : Int × MoveInfo) : Option (Int × MoveInfo) :=
  let is_tabu := isTabuMove tabu_list nb.2
  let aspiration := nb.1 < best_known_cost
  if ¬ is_tabu = true ∨ aspiration then
    match acc with
    | none => some nb
    | some b => if nb.1 < b.1 then some nb else acc
  else acc

/-- Embedding of `TabuSearch._select_best_move`: scan the generated
neighbors, returning the selected `(cost, move)` or `none`. -/
def selectBestMove (tabu_list : List (TabuData × Nat))
    (neighbors : List (Int × MoveInfo)) (best_known_cost : Int) :
    Option (Int × MoveInfo) :=
  neighbors.foldl (selectStep tabu_list best_known_cost) none

/-- The mutable state of `TabuSearch.solve`, at cost level. -/
structure TSState where
  current : Int
  best : Int
  no_improvement_count : Nat
  tabu_list : List (TabuData × Nat)
  iteration : Nat

/-- The iteration loop of `TabuSearch.solve` (lines 59-90). The fuel
argument counts the iterations still allowed by `max_iterations`; `nbhds k`
is the neighborhood sampled at iteration `k`. -/
def tsLoop (maxNoImp tenure : Nat) (nbhds : Nat → List (Int × MoveInfo)) :
    Nat → TSState → TSState
  | 0, s => s
  | fuel + 1, s =>
    if s.no_improvement_count < maxNoImp then
      let neighbors := nbhds s.iteration
      if neighbors.isEmpty then s
      else
        match selectBestMove s.tabu_list neighbors s.best with
        | none => s
        | some (c, m) =>
          let best' := if c < s.best then c else s.best
          let noImp' := if c < s.best then 0 else s.no_improvement_count + 1
          tsLoop maxNoImp tenure nbhds fuel
            { current := c
              best := best'
              no_improvement_count := noImp'
              tabu_list := updateTabuList tenure s.tabu_list m s.iteration
              iteration := s.iteration + 1 }
    else s

/-- Embedding of `TabuSearch.solve`: run the loop from a copy of the initial
solution (best = current = initial cost, empty tabu list) and return the
best cost found. -/
def tsSolve (maxIter maxNoImp tenure : Nat) (nbhds : Nat → List (Int × MoveInfo))
    (initial_cost : Int) : Int :=
  (tsLoop maxNoImp tenure nbhds maxIter
    { current := initial_cost
      best := initial_cost
      no_improvement_count := 0
      tabu_list := []
      iteration := 0 }).best

/-- C10: a 2-opt move is never classified as tabu: `_is_tabu_move` only
matches entries against swap and relocate candidates, so for every tabu list
(whatever 2-opt entries `_update_tabu_list` pushed onto it) and every 2-opt
candidate it returns `False`, leaving every generated 2-opt move eligible. -/
theorem twoOpt_never_tabu (tabu_list : List (TabuData × Nat)) (r i j : Nat) :
    isTabuMove tabu_list (.twoOpt r i j) = false := by
  induction tabu_list with
  | nil => rfl
  | cons e rest ih =>
    simp only [isTabuMove, List.any_cons, Bool.or_eq_false_iff] at ih ⊢
    exact ⟨by cases e.1 <;> trivial, ih⟩

/-- C2 counterexample: apply a relocate of customer 5 from route 0 to
route 1; `_update_tabu_list` stores the inverted entry (1 → 0), but a later
relocate of customer 5 from route 1 to route 0 — the claimed match — is NOT
classified as tabu, because `_is_tabu_move` compares the candidate's routes
swapped once more against the stored entry. -/
theorem relocate_inverse_not_tabu_cex :
    isTabuMove (updateTabuList 20 [] (.relocate 5 0 1 1 1) 0) (.relocate 5 1 0 1 1) = false := by
  decide

/-- C2 amended: for a tabu entry recorded for an applied relocate of
customer `c` from route `A` to route `B` (stored inverted as `B → A`, still
within tenure), a later relocate of `c` in the SAME direction `A → B`
matches it, and (when `A ≠ B`) the inverse relocate `B → A` does not: the
membership test re-inverts the stored entry. -/
theorem relocate_tabu_matches_same_direction
    (tenure c A B p q p' q' it : Nat) (hT : 0 < tenure) (hAB : A ≠ B) :
    isTabuMove (updateTabuList tenure [] (.relocate c A B p q) it)
        (.relocate c A B p' q') = true ∧
      isTabuMove (updateTabuList tenure [] (.relocate c A B p q) it)
        (.relocate c B A p' q') = false := by
  have hd : decide (0 < tenure) = true := decide_eq_true hT
  have hfilter : updateTabuList tenure [] (.relocate c A B p q) it =
      [(.relocate c B A, it)] := by
    simp [updateTabuList, invertMove, List.filter, hd]
  rw [hfilter]
  constructor
  · simp [isTabuMove]
  · simp [isTabuMove, Ne.symm hAB]

/-- Witness for C2's amended theorem at tenure 20, customer 5, routes 0, 1. -/
theorem relocate_tabu_matches_same_direction_witness :
    isTabuMove (updateTabuList 20 [] (.relocate 5 0 1 1 1) 0)
        (.relocate 5 0 1 2 2) = true ∧
      isTabuMove (updateTabuList 20 [] (.relocate 5 0 1 1 1) 0)
        (.relocate 5 1 0 2 2) = false :=
  relocate_tabu_matches_same_direction 20 5 0 1 1 1 2 2 0 (by decide) (by decide)

/-- Whether a neighbor is eligible in `_select_best_move`: not tabu, or
aspiration (cost strictly below the best known cost). -/
def eligibleMove (tabu_list : List (TabuData × Nat)) (best_known_cost : Int)
    (nb : Int × MoveInfo) : Prop :=
  isTabuMove tabu_list nb.2 = false ∨ nb.1 < best_known_cost

lemma selectStep_none (tabu_list : List (TabuData × Nat)) (bk : Int)
    (nb : Int × MoveInfo) :
    selectStep tabu_list bk none nb =
      if ¬ isTabuMove tabu_list nb.2 = true ∨ nb.1 < bk then some nb else none :=
  rfl

lemma selectStep_some (tabu_list : List (TabuData × Nat)) (bk : Int)
    (b0 nb : Int × MoveInfo) :
    selectStep tabu_list bk (some b0) nb =
      if ¬ isTabuMove tabu_list nb.2 = true ∨ nb.1 < bk then
        (if nb.1 < b0.1 then some nb else some b0)
      else some b0 :=
  rfl

lemma selectStep_preserves (tabu_list : List (TabuData × Nat)) (bk : Int)
    (acc : Option (Int × MoveInfo)) (nb : Int × MoveInfo)
    (hacc : ∀ a, acc = some a → eligibleMove tabu_list bk a) :
    ∀ a, selectStep tabu_list bk acc nb = some a → eligibleMove tabu_list bk a := by
  have helig : (¬ isTabuMove tabu_list nb.2 = true ∨ nb.1 < bk) →
      eligibleMove tabu_list bk nb := by
    intro hc
    rcases hc with h | h
    · exact Or.inl (by simpa using h)
    · exact Or.inr h
  intro a
  cases acc with
  | none =>
    rw [selectStep_none]
    split_ifs with hc
    · intro ha; cases ha; exact helig hc
    · intro ha; cases ha
  | some b0 =>
    rw [selectStep_some]
    split_ifs with hc hlt
    · intro ha; cases ha; exact helig hc
    · intro ha; cases ha; exact hacc _ rfl
    · intro ha; cases ha; exact hacc _ rfl

lemma selectFold_eligible (tabu_list : List (TabuData × Nat)) (bk : Int)
    (l : List (Int × MoveInfo)) :
    ∀ (acc : Option (Int × MoveInfo)),
      (∀ a, acc = some a → eligibleMove tabu_list bk a) →
      ∀ b, l.foldl (selectStep tabu_list bk) acc = some b →
        eligibleMove tabu_list bk b := by
  induction l with
  | nil => intro acc hacc b hb; exact hacc b hb
  | cons nb rest ih =>
    intro acc hacc b hb
    exact ih (selectStep tabu_list bk acc nb)
      (selectStep_preserves tabu_list bk acc nb hacc) b hb

lemma selectFold_minimal (tabu_list : List (TabuData × Nat)) (bk : Int)
    (l : List (Int × MoveInfo)) :
    ∀ (acc : Option (Int × MoveInfo)) (b : Int × MoveInfo),
      l.foldl (selectStep tabu_list bk) acc = some b →
        (∀ a, acc = some a → b.1 ≤ a.1) ∧
          ∀ nb ∈ l, eligibleMove tabu_list bk nb → b.1 ≤ nb.1 := by
  induction l with
  | nil =>
    intro acc b hb
    simp only [List.foldl_nil] at hb
    refine ⟨fun a ha => ?_, by simp⟩
    rw [hb] at ha
    cases ha
    exact le_rfl
  | cons nb rest ih =>
    intro acc b hb
    simp only [List.foldl_cons] at hb
    have key : (∀ a, selectStep tabu_list bk acc nb = some a → b.1 ≤ a.1) ∧
        ∀ x ∈ rest, eligibleMove tabu_list bk x → b.1 ≤ x.1 := ih _ b hb
    refine ⟨fun a ha => ?_, fun x hx hex => ?_⟩
    · subst ha
      by_cases hc : ¬ isTabuMove tabu_list nb.2 = true ∨ nb.1 < bk
      · by_cases hlt : nb.1 < a.1
        · have hsel : selectStep tabu_list bk (some a) nb = some nb := by
            rw [selectStep_some, if_pos hc, if_pos hlt]
          exact le_trans (key.1 nb hsel) (le_of_lt hlt)
        · have hsel : selectStep tabu_list bk (some a) nb = some a := by
            rw [selectStep_some, if_pos hc, if_neg hlt]
          exact key.1 a hsel
      · have hsel : selectStep tabu_list bk (some a) nb = some a := by
          rw [selectStep_some, if_neg hc]
        exact key.1 a hsel
    · rcases List.mem_cons.mp hx with rfl | hx
      · have hc : ¬ isTabuMove tabu_list x.2 = true ∨ x.1 < bk := by
          rcases hex with h | h
          · exact Or.inl (by simp [h])
          · exact Or.inr h
        cases acc with
        | none =>
          have hsel : selectStep tabu_list bk none x = some x := by
            rw [selectStep_none, if_pos hc]
          exact key.1 x hsel
        | some b0 =>
          by_cases hlt : x.1 < b0.1
          · have hsel : selectStep tabu_list bk (some b0) x = some x := by
              rw [selectStep_some, if_pos hc, if_pos hlt]
            exact key.1 x hsel
          · have hsel : selectStep tabu_list bk (some b0) x = some b0 := by
              rw [selectStep_some, if_pos hc, if_neg hlt]
            exact le_trans (key.1 b0 hsel) (le_of_not_lt hlt)
      · exact key.2 x hx hex

/-- C8: the move returned by `_select_best_move` is never tabu unless its
cost strictly improves on the best-known cost (aspiration criterion), and
among eligible moves it has the lowest resulting cost; moreover every entry
kept by `_update_tabu_list` is within its tenure window. -/
theorem selectBestMove_spec (tabu_list : List (TabuData × Nat))
    (neighbors : List (Int × MoveInfo)) (best_known_cost c : Int) (m : MoveInfo)
    (h : selectBestMove tabu_list neighbors best_known_cost = some (c, m)) :
    (isTabuMove tabu_list m = false ∨ c < best_known_cost) ∧
      (∀ nb ∈ neighbors,
        (isTabuMove tabu_list nb.2 = false ∨ nb.1 < best_known_cost) → c ≤ nb.1) ∧
      ∀ (tenure it : Nat) (mv : MoveInfo) (e : TabuData × Nat),
        e ∈ updateTabuList tenure tabu_list mv it →
          (it : Int) - (e.2 : Int) < (tenure : Int) := by
  refine ⟨?_, ?_, ?_⟩
  · exact selectFold_eligible tabu_list best_known_cost neighbors none
      (by intro a ha; cases ha) (c, m) h
  · exact (selectFold_minimal tabu_list best_known_cost neighbors none (c, m) h).2
  · intro tenure it mv e he
    simp only [updateTabuList, List.mem_filter, decide_eq_true_eq] at he
    exact he.2

/-- Witness for C8: a concrete neighborhood where a cheaper tabu swap is
skipped (no aspiration) and the cheapest eligible move is returned. -/
theorem selectBestMove_spec_witness :
    (isTabuMove [(.swap 1 2, 0)] (MoveInfo.relocate 3 0 1 1 1) = false ∨ (7 : Int) < 3) ∧
      (∀ nb ∈ [((5 : Int), MoveInfo.swap 2 1 0 0), ((7 : Int), MoveInfo.relocate 3 0 1 1 1)],
        (isTabuMove [(.swap 1 2, 0)] nb.2 = false ∨ nb.1 < 3) → (7 : Int) ≤ nb.1) ∧
      ∀ (tenure it : Nat) (mv : MoveInfo) (e : TabuData × Nat),
        e ∈ updateTabuList tenure [(.swap 1 2, 0)] mv it →
          (it : Int) - (e.2 : Int) < (tenure : Int) :=
  selectBestMove_spec [(.swap 1 2, 0)]
    [((5 : Int), MoveInfo.swap 2 1 0 0), ((7 : Int), MoveInfo.relocate 3 0 1 1 1)]
    3 7 (MoveInfo.relocate 3 0 1 1 1) (by decide)

lemma foldl_min_le_init (l : List Int) : ∀ a : Int, l.foldl min a ≤ a := by
  induction l with
  | nil => intro a; exact le_rfl
  | cons x rest ih =>
    intro a
    exact le_trans (ih (min a x)) (min_le_left a x)

lemma tsLoop_best_le (maxNoImp tenure : Nat) (nbhds : Nat → List (Int × MoveInfo)) :
    ∀ (fuel : Nat) (s : TSState),
      (tsLoop maxNoImp tenure nbhds fuel s).best ≤ s.best := by
  intro fuel
  induction fuel with
  | zero => intro s; exact le_rfl
  | succ fuel ih =>
    intro s
    rw [tsLoop]
    split_ifs with h1
    · rcases hne : (nbhds s.iteration).isEmpty with _ | _
      · simp only [hne]
        rcases hsel : selectBestMove s.tabu_list (nbhds s.iteration) s.best with _ | cm
        · simp [hsel]
        · rcases cm with ⟨c, m⟩
          simp only [hsel]
          refine le_trans (ih _) ?_
          by_cases hc : c < s.best
          · simp [hc, le_of_lt hc]
          · simp [hc]
      · simp [hne]
    · exact le_rfl

/-- C7: for every initial solution and any run with at least one completed
iteration, the best cost returned by `SimulatedAnnealing.solve` and by
`TabuSearch.solve` is at most the initial solution's cost. -/
theorem drivers_monotone (initial_cost : Int) (events : List (Int × Bool))
    (maxIter maxNoImp tenure : Nat) (nbhds : Nat → List (Int × MoveInfo))
    (hsa : events ≠ []) (hts : 0 < maxIter) :
    (saSolve initial_cost events).best ≤ initial_cost ∧
      tsSolve maxIter maxNoImp tenure nbhds initial_cost ≤ initial_cost := by
  constructor
  · have h := saFold_best events { current := initial_cost, best := initial_cost } le_rfl
    rw [saSolve, h]
    exact foldl_min_le_init _ _
  · exact tsLoop_best_le maxNoImp tenure nbhds maxIter _

/-- Witness for C7 at a concrete one-event SA run and a one-iteration TS run. -/
theorem drivers_monotone_witness :
    (saSolve 10 [(5, false)]).best ≤ 10 ∧
      tsSolve 1 200 20 (fun _ => [(4, MoveInfo.swap 1 2 0 0)]) 10 ≤ 10 :=
  drivers_monotone 10 [(5, false)] 1 200 20 (fun _ => [(4, MoveInfo.swap 1 2 0 0)])
    (by decide) (by decide)

/-! ### Greedy construction (src/algorithms/construction_heuristics.py)

`GreedyConstruction._build_route` and `construct` are embedded directly;
the Python set `unvisited` becomes a duplicate-free list with a fixed
iteration order, and its in-place mutation becomes explicit threading. The
`while` loops become fuel recursion with provably sufficient fuel (each pass
of `_build_route`'s loop removes exactly one customer, each pass of the
leftover loop in `construct` removes at least one). -/

/-- The per-customer feasibility test in the selection loop of
`_build_route` (lines 71-85): skip when the demand overflows the remaining
capacity, or when the arrival time misses the window and the required
waiting exceeds the fixed tolerance of 100. -/
def customerEligible (inst : VRPInstance) (current_node : Nat) (current_load : Int)
    (current_time : Int) (vehicle_capacity : Int) (customer : Nat) : Bool :=
  let demand := (inst.demands.lookup customer).getD 0
  if current_load + demand > vehicle_capacity then false
  else
    let arrival_time := current_time + inst.dist current_node customer
    if ¬ inst.is_feasible_time_window customer arrival_time then
      if inst.get_waiting_time customer arrival_time > 100 then false else true
    else true

/-- One scan step of the nearest-feasible-customer search (lines 71-91):
keep the strictly nearest eligible customer seen so far (`best_distance`
starts at infinity, modelled by `none`). -/
def findBestStep (inst : VRPInstance) (current_node : Nat) (current_load : Int)
    (current_time : Int) (vehicle_capacity : Int)
    (best : Option (Nat × Int)) (customer : Nat) : Option (Nat × Int) :=
  if customerEligible inst current_node current_load current_time vehicle_capacity customer then
    let distance := inst.dist current_node customer
    match best with
    | none => some (customer, distance)
    | some b => if distance < b.2 then some (customer, distance) else best
  else best

/-- The full nearest-feasible-customer scan of `_build_route`. -/
def findBestCustomer (inst : VRPInstance) (current_node : Nat) (current_load : Int)
    (current_time : Int) (vehicle_capacity : Int) (unvisited : List Nat) :
    Option (Nat × Int) :=
  unvisited.foldl (findBestStep inst current_node current_load current_time vehicle_capacity)
    none

/-- The `while unvisited:` loop of `_build_route` (lines 66-107): append the
nearest eligible customer, update node, load and clock (travel plus waiting
plus service), remove the customer from the unvisited set, repeat until no
eligible customer remains. -/
def buildRouteLoop (inst : VRPInstance) (vehicle_capacity : Int) :
    Nat → List Nat → List Nat → Nat → Int → Int → List Nat × List Nat
  | 0, unvisited, route, _, _, _ => (route, unvisited)
  | fuel + 1, unvisited, route, current_node, current_load, current_time =>
    match findBestCustomer inst current_node current_load current_time vehicle_capacity
        unvisited with
    | none => (route, unvisited)
    | some (best_customer, _) =>
      let travel := inst.dist current_node best_customer
      let time' := current_time + travel
      let time'' := time' + inst.get_waiting_time best_customer time'
      let time''' := time'' + (inst.service_times.lookup best_customer).getD 0
      buildRouteLoop inst vehicle_capacity fuel (unvisited.erase best_customer)
        (route ++ [best_customer]) best_customer
        (current_load + (inst.demands.lookup best_customer).getD 0) time'''

/-- Embedding of `GreedyConstruction._build_route`: run the selection loop
from the depot, close the route at the depot, and return `[]` for routes
that never left the depot; the returned unvisited list models the in-place
mutation of the Python set. -/
def buildRoute (inst : VRPInstance) (unvisited : List Nat) (vehicle_id : Nat) :
    List Nat × List Nat :=
  let vehicle_capacity := inst.vehicle_capacities.getD vehicle_id inst.capacity
  let r := buildRouteLoop inst vehicle_capacity unvisited.length unvisited
    [inst.depot] inst.depot 0 0
  let route := if r.1.length > 1 then r.1 ++ [inst.depot] else r.1
  (if route.length > 2 then route else [], r.2)

/-- Embedding of `Solution.add_route`'s normalization: prepend and append
the depot when missing. -/
def addRoute (depot : Nat) (route : List Nat) : List Nat :=
  let route1 := if route ≠ [] ∧ route.head? ≠ some depot then depot :: route else route
  if route1 ≠ [] ∧ route1.getLast? ≠ some depot then route1 ++ [depot] else route1

/-- The removal loop of `GreedyConstruction.construct` (lines 32-34 and
42-44): drop each route customer from the unvisited set if still present. -/
def removeVisited (route : List Nat) (unvisited : List Nat) : List Nat :=
  route.foldl (fun u c => if c ∈ u then u.erase c else u) unvisited

/-- The first loop of `GreedyConstruction.construct` (lines 27-35): one
`_build_route` per configured vehicle while customers remain. The fuel is
the number of vehicles still available (`vehicle_count - vehicle_id`). -/
def constructVehicles (inst : VRPInstance) :
    Nat → Nat → List (List Nat) → List Nat → List (List Nat) × List Nat
  | 0, _, routes, unvisited => (routes, unvisited)
  | fuel + 1, vehicle_id, routes, unvisited =>
    if unvisited.isEmpty then (routes, unvisited)
    else
      let r := buildRoute inst unvisited vehicle_id
      let routes' := if r.1.isEmpty then routes else routes ++ [addRoute inst.depot r.1]
      constructVehicles inst fuel (vehicle_id + 1) routes' (removeVisited r.1 r.2)

/-- The leftover loop of `GreedyConstruction.construct` (lines 38-49):
build additional routes until every customer is assigned, forcing a
single-customer route when `_build_route` finds no feasible customer. -/
def constructRemaining (inst : VRPInstance) :
    Nat → List (List Nat) → List Nat → List (List Nat) × List Nat
  | 0, routes, unvisited => (routes, unvisited)
  | fuel + 1, routes, unvisited =>
    if unvisited.isEmpty then (routes, unvisited)
    else
      let r := buildRoute inst unvisited routes.length
      if r.1.isEmpty then
        let remaining := unvisited
        constructRemaining inst fuel
          (routes ++ [addRoute inst.depot ([inst.depot] ++ remaining.take 1 ++ [inst.depot])])
          (unvisited.erase (remaining.headD 0))
      else
        constructRemaining inst fuel (routes ++ [addRoute inst.depot r.1])
          (removeVisited r.1 r.2)

/-- Embedding of `GreedyConstruction.construct`: the unvisited set is the
demand keys minus the depot; run the vehicle loop, then the leftover loop,
and return the solution with its cost computed. -/
def construct (inst : VRPInstance) : Solution :=
  let unvisited := (inst.demands.map Prod.fst).filter (fun c => c ≠ inst.depot)
  let p1 := constructVehicles inst inst.vehicle_count 0 [] unvisited
  let p2 := constructRemaining inst p1.2.length p1.1 p1.2
  let sol : Solution := { instance? := some inst, routes := p2.1 }
  sol.calculate_cost.1

lemma findBestStep_good (inst : VRPInstance) (node : Nat) (load time cap : Int)
    (u : List Nat) (acc : Option (Nat × Int)) (c : Nat)
    (hacc : ∀ a, acc = some a → a.1 ∈ u ∧
      customerEligible inst node load time cap a.1 = true ∧ a.2 = inst.dist node a.1)
    (hc : c ∈ u) :
    ∀ a, findBestStep inst node load time cap acc c = some a →
      a.1 ∈ u ∧ customerEligible inst node load time cap a.1 = true ∧
        a.2 = inst.dist node a.1 := by
  intro a
  unfold findBestStep
  split_ifs with he
  · cases acc with
    | none => intro ha; cases ha; exact ⟨hc, he, rfl⟩
    | some b0 =>
      show (if inst.dist node c < b0.2 then some (c, inst.dist node c) else some b0) =
        some a → _
      split_ifs with hlt
      · intro ha; cases ha; exact ⟨hc, he, rfl⟩
      · intro ha; cases ha; exact hacc _ rfl
  · intro ha; exact hacc a ha

lemma findBestCustomer_good (inst : VRPInstance) (node : Nat) (load time cap : Int)
    (u : List Nat) :
    ∀ b, findBestCustomer inst node load time cap u = some b →
      b.1 ∈ u ∧ customerEligible inst node load time cap b.1 = true ∧
        b.2 = inst.dist node b.1 := by
  suffices h : ∀ (l : List Nat) (acc : Option (Nat × Int)),
      (∀ c ∈ l, c ∈ u) →
      (∀ a, acc = some a → a.1 ∈ u ∧
        customerEligible inst node load time cap a.1 = true ∧ a.2 = inst.dist node a.1) →
      ∀ b, l.foldl (findBestStep inst node load time cap) acc = some b →
        b.1 ∈ u ∧ customerEligible inst node load time cap b.1 = true ∧
          b.2 = inst.dist node b.1 by
    exact h u none (fun _ hx => hx) (fun a ha => by cases ha)
  intro l
  induction l with
  | nil => intro acc _ hacc b hb; exact hacc b hb
  | cons c rest ih =>
    intro acc hl hacc b hb
    exact ih _ (fun x hx => hl x (List.mem_cons_of_mem c hx))
      (findBestStep_good inst node load time cap u acc c hacc
        (hl c (List.mem_cons_self c rest))) b hb

lemma waiting_le_of_feasible (inst : VRPInstance) (c : Nat) (t : Int)
    (h : inst.is_feasible_time_window c t = true) :
    inst.get_waiting_time c t ≤ 100 := by
  unfold VRPInstance.is_feasible_time_window at h
  unfold VRPInstance.get_waiting_time
  rcases hw : inst.time_windows.lookup c with _ | ⟨early, late⟩
  · show (0 : Int) ≤ 100
    norm_num
  · rw [hw] at h
    show max 0 (early - t) ≤ 100
    have h' : (decide (early ≤ t) && decide (t ≤ late)) = true := h
    simp only [Bool.and_eq_true, decide_eq_true_eq] at h'
    omega

lemma customerEligible_capacity_waiting (inst : VRPInstance) (node : Nat)
    (load time cap : Int) (c : Nat)
    (h : customerEligible inst node load time cap c = true) :
    load + (inst.demands.lookup c).getD 0 ≤ cap ∧
      inst.get_waiting_time c (time + inst.dist node c) ≤ 100 := by
  unfold customerEligible at h
  dsimp only [] at h
  split_ifs at h with h1 h2 h3
  all_goals first
    | exact ⟨le_of_not_lt h1, le_of_not_lt h3⟩
    | exact ⟨le_of_not_lt h1, waiting_le_of_feasible inst c _ (by simpa using h2)⟩

/-- C3 amended: `_build_route` appends a customer only if its demand fits
the remaining capacity and its required waiting time at the arrival moment
is at most the fixed tolerance of 100; the time-window check does NOT
exclude late arrivals (their waiting time is 0), only arrivals more than
100 time units early. -/
theorem build_route_append_condition
    (inst : VRPInstance) (node : Nat) (load time cap : Int) (u : List Nat)
    (c : Nat) (d : Int)
    (h : findBestCustomer inst node load time cap u = some (c, d)) :
    c ∈ u ∧ load + (inst.demands.lookup c).getD 0 ≤ cap ∧
      inst.get_waiting_time c (time + inst.dist node c) ≤ 100 := by
  obtain ⟨hm, he, _⟩ := findBestCustomer_good inst node load time cap u (c, d) h
  exact ⟨hm, customerEligible_capacity_waiting inst node load time cap c he⟩

/-- A concrete instance whose single customer (time window `[0, 5]`, travel
distance 10 from the depot) can only be reached after its latest time. -/
def exInstLate : VRPInstance where
  depot := 0
  capacity := 100
  vehicle_count := 1
  vehicle_capacities := [100]
  demands := [(0, 0), (1, 1)]
  time_windows := [(1, 0, 5)]
  service_times := []
  dist := fun _ _ => 10

/-- C3 counterexample: `_build_route` appends customer 1 although its
arrival time `0 + dist(0,1) = 10` exceeds its latest time 5 (the waiting
time of a late arrival is 0, which passes the tolerance check). -/
theorem build_route_appends_late_customer_cex :
    (buildRoute exInstLate [1] 0).1 = [0, 1, 0] ∧
      exInstLate.time_windows.lookup 1 = some (0, 5) ∧
      0 + exInstLate.dist 0 1 > 5 ∧
      exInstLate.is_feasible_time_window 1 (0 + exInstLate.dist 0 1) = false := by
  refine ⟨by decide, by decide, by decide, by decide⟩

/-- Witness for C3's amended theorem on `exInstLate`. -/
theorem build_route_append_condition_witness :
    (1 : Nat) ∈ [1] ∧ (0 : Int) + (exInstLate.demands.lookup 1).getD 0 ≤ 100 ∧
      exInstLate.get_waiting_time 1 (0 + exInstLate.dist 0 1) ≤ 100 :=
  build_route_append_condition exInstLate 0 0 0 100 [1] 1 10 (by decide)

/-- The customer filter used throughout the coverage argument. -/
def nonDepot (depot : Nat) (l : List Nat) : List Nat :=
  l.filter fun c => c ≠ depot

lemma buildRouteLoop_spec (inst : VRPInstance) (cap : Int) :
    ∀ (fuel : Nat) (u route : List Nat) (node : Nat) (load time : Int),
      inst.depot ∉ u → u.Nodup → (∀ c ∈ route, c ∉ u) →
      (nonDepot inst.depot (buildRouteLoop inst cap fuel u route node load time).1 ++
          (buildRouteLoop inst cap fuel u route node load time).2).Perm
        (nonDepot inst.depot route ++ u) ∧
      inst.depot ∉ (buildRouteLoop inst cap fuel u route node load time).2 ∧
      (buildRouteLoop inst cap fuel u route node load time).2.Nodup ∧
      (∀ c ∈ (buildRouteLoop inst cap fuel u route node load time).1,
        c ∉ (buildRouteLoop inst cap fuel u route node load time).2) ∧
      (∀ x ∈ (buildRouteLoop inst cap fuel u route node load time).2, x ∈ u) ∧
      ∃ delta, (buildRouteLoop inst cap fuel u route node load time).1 = route ++ delta ∧
        (buildRouteLoop inst cap fuel u route node load time).2.length + delta.length =
          u.length ∧
        (delta = [] → (buildRouteLoop inst cap fuel u route node load time).2 = u) := by
  intro fuel
  induction fuel with
  | zero =>
    intro u route node load time hd hn hr
    have e : buildRouteLoop inst cap 0 u route node load time = (route, u) := rfl
    rw [e]
    refine ⟨List.Perm.refl _, hd, hn, hr, fun x hx => hx, [], by simp, by simp, fun _ => rfl⟩
  | succ fuel ih =>
    intro u route node load time hd hn hr
    rcases hfb : findBestCustomer inst node load time cap u with _ | ⟨c, d⟩
    · have e : buildRouteLoop inst cap (fuel + 1) u route node load time = (route, u) := by
        rw [buildRouteLoop, hfb]
      rw [e]
      refine ⟨List.Perm.refl _, hd, hn, hr, fun x hx => hx, [], by simp, by simp, fun _ => rfl⟩
    · have e : buildRouteLoop inst cap (fuel + 1) u route node load time =
          buildRouteLoop inst cap fuel (u.erase c) (route ++ [c]) c
            (load + (inst.demands.lookup c).getD 0)
            (time + inst.dist node c + inst.get_waiting_time c (time + inst.dist node c) +
              (inst.service_times.lookup c).getD 0) := by
        rw [buildRouteLoop, hfb]
      rw [e]
      obtain ⟨hcu, _, _⟩ := findBestCustomer_good inst node load time cap u (c, d) hfb
      have hcd : c ≠ inst.depot := fun hh => hd (hh ▸ hcu)
      have hd' : inst.depot ∉ u.erase c := fun hh => hd (List.mem_of_mem_erase hh)
      have hn' : (u.erase c).Nodup := hn.erase c
      have hr' : ∀ x ∈ route ++ [c], x ∉ u.erase c := by
        intro x hx
        rcases List.mem_append.mp hx with hx | hx
        · exact fun hh => hr x hx (List.mem_of_mem_erase hh)
        · rcases List.mem_singleton.mp hx with rfl
          exact hn.not_mem_erase
      obtain ⟨hperm, hd2, hn2, hr2, hsub, delta, hdelta, hlen, _⟩ :=
        ih (u.erase c) (route ++ [c]) c
          (load + (inst.demands.lookup c).getD 0)
          (time + inst.dist node c + inst.get_waiting_time c (time + inst.dist node c) +
            (inst.service_times.lookup c).getD 0) hd' hn' hr'
      refine ⟨?_, hd2, hn2, hr2, fun x hx => List.mem_of_mem_erase (hsub x hx),
        c :: delta, by simpa using hdelta, ?_, by simp⟩
      · refine hperm.trans ?_
        have h1 : nonDepot inst.depot (route ++ [c]) =
            nonDepot inst.depot route ++ [c] := by
          simp [nonDepot, List.filter_append, hcd]
        rw [h1]
        have h2 : (nonDepot inst.depot route ++ [c] ++ u.erase c).Perm
            (nonDepot inst.depot route ++ (c :: u.erase c)) := by
          rw [List.append_assoc]
          exact List.Perm.refl _
        refine h2.trans ?_
        exact ((List.perm_cons_erase hcu).symm).append_left _
      · have h3 : (u.erase c).length + 1 = u.length := List.length_erase_add_one hcu
        simp only [List.length_cons]
        omega

lemma buildRoute_spec (inst : VRPInstance) (u : List Nat) (vid : Nat)
    (hd : inst.depot ∉ u) (hn : u.Nodup) :
    (nonDepot inst.depot (buildRoute inst u vid).1 ++ (buildRoute inst u vid).2).Perm u ∧
      inst.depot ∉ (buildRoute inst u vid).2 ∧
      (buildRoute inst u vid).2.Nodup ∧
      (∀ c ∈ (buildRoute inst u vid).1, c ∉ (buildRoute inst u vid).2) ∧
      ((buildRoute inst u vid).1 = [] → (buildRoute inst u vid).2 = u) ∧
      ((buildRoute inst u vid).1 ≠ [] →
        (buildRoute inst u vid).2.length < u.length) := by
  have hr0 : ∀ c ∈ [inst.depot], c ∉ u := by
    intro c hc
    rcases List.mem_singleton.mp hc with rfl
    exact hd
  obtain ⟨hperm, hd2, hn2, hr2, hsub, delta, hdelta, hlen, hempty⟩ :=
    buildRouteLoop_spec inst (inst.vehicle_capacities.getD vid inst.capacity)
      u.length u [inst.depot] inst.depot 0 0 hd hn hr0
  set lr := buildRouteLoop inst (inst.vehicle_capacities.getD vid inst.capacity)
    u.length u [inst.depot] inst.depot 0 0 with hlr
  have hbr : buildRoute inst u vid =
      (if (if lr.1.length > 1 then lr.1 ++ [inst.depot] else lr.1).length > 2
        then (if lr.1.length > 1 then lr.1 ++ [inst.depot] else lr.1) else [], lr.2) := rfl
  have hnd0 : nonDepot inst.depot [inst.depot] = [] := by simp [nonDepot]
  by_cases hdel : delta = []
  · -- no customer was appended: the loop returned the bare depot route
    have hroute : lr.1 = [inst.depot] := by rw [hdelta, hdel, List.append_nil]
    have hu : lr.2 = u := hempty hdel
    rw [hbr, hroute]
    have h1 : ¬ ([inst.depot].length > 1) := by simp
    rw [if_neg h1]
    have h2 : ¬ ([inst.depot].length > 2) := by simp
    rw [if_neg h2, hu]
    exact ⟨by simp [nonDepot], hd, hn, by simp, fun _ => rfl, fun h => absurd rfl h⟩
  · -- some customer was appended: the route is closed at the depot and kept
    have hlen1 : lr.1.length = 1 + delta.length := by
      rw [hdelta, List.length_append, List.length_singleton]
    have hdl : 1 ≤ delta.length := by
      cases delta with
      | nil => exact absurd rfl hdel
      | cons a l => simp
    have hgt1 : lr.1.length > 1 := by omega
    have hlen2 : (lr.1 ++ [inst.depot]).length = 1 + delta.length + 1 := by
      rw [List.length_append, List.length_singleton, hlen1]
    have hgt2 : (lr.1 ++ [inst.depot]).length > 2 := by omega
    rw [hbr]
    simp only [if_pos hgt1, if_pos hgt2]
    have hnd : nonDepot inst.depot (lr.1 ++ [inst.depot]) = nonDepot inst.depot lr.1 := by
      simp [nonDepot, List.filter_append]
    have hperm' : (nonDepot inst.depot lr.1 ++ lr.2).Perm u := by
      have := hperm
      rw [hnd0, List.nil_append] at this
      exact this
    refine ⟨by rw [hnd]; exact hperm', hd2, hn2, ?_, ?_, ?_⟩
    · intro c hc
      rcases List.mem_append.mp hc with hc | hc
      · exact hr2 c hc
      · rcases List.mem_singleton.mp hc with rfl
        exact fun hh => hd2 hh
    · intro h
      exact absurd h (by simp)
    · intro _
      omega

lemma removeVisited_eq (route u : List Nat) (h : ∀ c ∈ route, c ∉ u) :
    removeVisited route u = u := by
  induction route generalizing u with
  | nil => rfl
  | cons c rest ih =>
    unfold removeVisited
    simp only [List.foldl_cons]
    rw [if_neg (h c (List.mem_cons_self c rest))]
    exact ih u fun x hx => h x (List.mem_cons_of_mem c hx)

lemma nonDepot_addRoute (depot : Nat) (route : List Nat) :
    nonDepot depot (addRoute depot route) = nonDepot depot route := by
  unfold addRoute
  dsimp only []
  split_ifs <;> simp [nonDepot, List.filter_append]

lemma nonDepot_append (depot : Nat) (a b : List Nat) :
    nonDepot depot (a ++ b) = nonDepot depot a ++ nonDepot depot b := by
  simp [nonDepot, List.filter_append]

lemma constructVehicles_spec (inst : VRPInstance) :
    ∀ (fuel vid : Nat) (routes : List (List Nat)) (u : List Nat),
      inst.depot ∉ u → u.Nodup →
      (nonDepot inst.depot (constructVehicles inst fuel vid routes u).1.flatten ++
          (constructVehicles inst fuel vid routes u).2).Perm
        (nonDepot inst.depot routes.flatten ++ u) ∧
      inst.depot ∉ (constructVehicles inst fuel vid routes u).2 ∧
      (constructVehicles inst fuel vid routes u).2.Nodup := by
  intro fuel
  induction fuel with
  | zero =>
    intro vid routes u hd hn
    exact ⟨List.Perm.refl _, hd, hn⟩
  | succ fuel ih =>
    intro vid routes u hd hn
    rw [constructVehicles]
    by_cases hu : u.isEmpty
    · rw [if_pos hu]
      exact ⟨List.Perm.refl _, hd, hn⟩
    · rw [if_neg hu]
      dsimp only []
      obtain ⟨hperm, hd2, hn2, hr2, hemp, _⟩ := buildRoute_spec inst u vid hd hn
      by_cases hbe : (buildRoute inst u vid).1.isEmpty
      · have h1 : (buildRoute inst u vid).1 = [] := List.isEmpty_iff.mp hbe
        rw [if_pos hbe]
        have h2 : removeVisited (buildRoute inst u vid).1 (buildRoute inst u vid).2 = u := by
          rw [h1, hemp h1]
          rfl
        rw [h2]
        exact ih (vid + 1) routes u hd hn
      · rw [if_neg hbe]
        have h2 : removeVisited (buildRoute inst u vid).1 (buildRoute inst u vid).2 =
            (buildRoute inst u vid).2 := removeVisited_eq _ _ hr2
        rw [h2]
        obtain ⟨hperm', hd3, hn3⟩ := ih (vid + 1)
          (routes ++ [addRoute inst.depot (buildRoute inst u vid).1])
          (buildRoute inst u vid).2 hd2 hn2
        refine ⟨hperm'.trans ?_, hd3, hn3⟩
        rw [List.flatten_append]
        have h3 : ([addRoute inst.depot (buildRoute inst u vid).1] :
            List (List Nat)).flatten = addRoute inst.depot (buildRoute inst u vid).1 := by
          simp
        rw [h3, nonDepot_append, nonDepot_addRoute, List.append_assoc]
        exact hperm.append_left _

lemma constructRemaining_spec (inst : VRPInstance) :
    ∀ (fuel : Nat) (routes : List (List Nat)) (u : List Nat),
      inst.depot ∉ u → u.Nodup → u.length ≤ fuel →
      (constructRemaining inst fuel routes u).2 = [] ∧
      (nonDepot inst.depot (constructRemaining inst fuel routes u).1.flatten).Perm
        (nonDepot inst.depot routes.flatten ++ u) := by
  intro fuel
  induction fuel with
  | zero =>
    intro routes u hd hn hf
    have hu : u = [] := List.length_eq_zero.mp (Nat.le_zero.mp hf)
    subst hu
    have e : constructRemaining inst 0 routes [] = (routes, []) := rfl
    rw [e]
    exact ⟨rfl, by simp⟩
  | succ fuel ih =>
    intro routes u hd hn hf
    rw [constructRemaining]
    by_cases hu : u.isEmpty
    · rw [if_pos hu]
      have hu' : u = [] := List.isEmpty_iff.mp hu
      subst hu'
      exact ⟨rfl, by simp⟩
    · rw [if_neg hu]
      dsimp only []
      obtain ⟨hperm, hd2, hn2, hr2, hemp, hlt⟩ := buildRoute_spec inst u routes.length hd hn
      by_cases hbe : (buildRoute inst u routes.length).1.isEmpty
      · -- forced single-customer route on the head of the unvisited list
        rw [if_pos hbe]
        rcases u with _ | ⟨h0, t0⟩
        · exact absurd rfl hu
        · have e1 : (h0 :: t0).headD 0 = h0 := rfl
          have e2 : (h0 :: t0).erase h0 = t0 := List.erase_cons_head h0 t0
          have e3 : (h0 :: t0).take 1 = [h0] := rfl
          rw [e1, e2, e3]
          have hd' : inst.depot ∉ t0 := fun hh => hd (List.mem_cons_of_mem h0 hh)
          have hn' : t0.Nodup := hn.of_cons
          have hf' : t0.length ≤ fuel := by simpa using hf
          obtain ⟨hfin, hperm'⟩ := ih
            (routes ++ [addRoute inst.depot ([inst.depot] ++ [h0] ++ [inst.depot])])
            t0 hd' hn' hf'
          refine ⟨hfin, hperm'.trans ?_⟩
          have hh0d : h0 ≠ inst.depot := by
            intro hh
            exact hd (hh ▸ List.mem_cons_self h0 t0)
          rw [List.flatten_append]
          have h3 : ([addRoute inst.depot ([inst.depot] ++ [h0] ++ [inst.depot])] :
              List (List Nat)).flatten =
              addRoute inst.depot ([inst.depot] ++ [h0] ++ [inst.depot]) := by simp
          rw [h3, nonDepot_append, nonDepot_addRoute]
          have h4 : nonDepot inst.depot ([inst.depot] ++ [h0] ++ [inst.depot]) = [h0] := by
            simp [nonDepot, hh0d]
          rw [h4, List.append_assoc]
          exact List.Perm.refl _
      · -- a regular route was built; its customers leave the unvisited list
        rw [if_neg hbe]
        have h1 : (buildRoute inst u routes.length).1 ≠ [] := fun hh => hbe (by simp [hh])
        have h2 : removeVisited (buildRoute inst u routes.length).1
            (buildRoute inst u routes.length).2 =
            (buildRoute inst u routes.length).2 := removeVisited_eq _ _ hr2
        rw [h2]
        have hf' : (buildRoute inst u routes.length).2.length ≤ fuel := by
          have := hlt h1
          omega
        obtain ⟨hfin, hperm'⟩ := ih
          (routes ++ [addRoute inst.depot (buildRoute inst u routes.length).1])
          (buildRoute inst u routes.length).2 hd2 hn2 hf'
        refine ⟨hfin, hperm'.trans ?_⟩
        rw [List.flatten_append]
        have h3 : ([addRoute inst.depot (buildRoute inst u routes.length).1] :
            List (List Nat)).flatten =
            addRoute inst.depot (buildRoute inst u routes.length).1 := by simp
        rw [h3, nonDepot_append, nonDepot_addRoute, List.append_assoc]
        exact hperm.append_left _

lemma calculate_cost_routes (s : Solution) : s.calculate_cost.1.routes = s.routes := by
  unfold Solution.calculate_cost
  cases s.instance? <;> rfl

/-- C6: for every instance whose depot has demand 0 (and whose demand dict
has well-formed distinct keys), `GreedyConstruction.construct` assigns every
non-depot customer to exactly one route exactly once, including through the
forced extra routes created when the configured vehicle count is
exhausted. -/
theorem construct_coverage (inst : VRPInstance)
    (hkeys : (inst.demands.map Prod.fst).Nodup)
    (hdepot : (inst.demands.lookup inst.depot).getD 0 = 0) :
    ∀ c ∈ (inst.demands.map Prod.fst).filter (fun c => c ≠ inst.depot),
      ((construct inst).routes.map fun r => r.count c).sum = 1 := by
  intro c hc
  set u0 := (inst.demands.map Prod.fst).filter (fun c => c ≠ inst.depot) with hu0
  have hd0 : inst.depot ∉ u0 := by
    intro hh
    rw [hu0] at hh
    have := (List.mem_filter.mp hh).2
    simp at this
  have hn0 : u0.Nodup := hkeys.filter _
  obtain ⟨hperm1, hd1, hn1⟩ :=
    constructVehicles_spec inst inst.vehicle_count 0 [] u0 hd0 hn0
  obtain ⟨hfin, hperm2⟩ := constructRemaining_spec inst
    (constructVehicles inst inst.vehicle_count 0 [] u0).2.length
    (constructVehicles inst inst.vehicle_count 0 [] u0).1
    (constructVehicles inst inst.vehicle_count 0 [] u0).2 hd1 hn1 le_rfl
  have hperm : (nonDepot inst.depot
      (constructRemaining inst
        (constructVehicles inst inst.vehicle_count 0 [] u0).2.length
        (constructVehicles inst inst.vehicle_count 0 [] u0).1
        (constructVehicles inst inst.vehicle_count 0 [] u0).2).1.flatten).Perm u0 := by
    refine hperm2.trans ?_
    have : nonDepot inst.depot ([] : List (List Nat)).flatten ++ u0 = u0 := by
      simp [nonDepot]
    exact this ▸ hperm1
  have hroutes : (construct inst).routes =
      (constructRemaining inst
        (constructVehicles inst inst.vehicle_count 0 [] u0).2.length
        (constructVehicles inst inst.vehicle_count 0 [] u0).1
        (constructVehicles inst inst.vehicle_count 0 [] u0).2).1 := by
    unfold construct
    rw [calculate_cost_routes]
  rw [hroutes]
  have hcnd : c ≠ inst.depot := by
    have := (List.mem_filter.mp (hu0 ▸ hc)).2
    simpa using this
  have hcount : ((constructRemaining inst
      (constructVehicles inst inst.vehicle_count 0 [] u0).2.length
      (constructVehicles inst inst.vehicle_count 0 [] u0).1
      (constructVehicles inst inst.vehicle_count 0 [] u0).2).1.flatten).count c = 1 := by
    have h1 : ((constructRemaining inst
        (constructVehicles inst inst.vehicle_count 0 [] u0).2.length
        (constructVehicles inst inst.vehicle_count 0 [] u0).1
        (constructVehicles inst inst.vehicle_count 0 [] u0).2).1.flatten.filter
          (fun x => x ≠ inst.depot)).count c =
        ((constructRemaining inst
        (constructVehicles inst inst.vehicle_count 0 [] u0).2.length
        (constructVehicles inst inst.vehicle_count 0 [] u0).1
        (constructVehicles inst inst.vehicle_count 0 [] u0).2).1.flatten).count c :=
      List.count_filter (by simpa using hcnd)
    have h2 := hperm.count_eq c
    rw [nonDepot] at h2
    rw [h1] at h2
    rw [h2]
    exact List.count_eq_one_of_mem hn0 hc
  rw [← List.count_flatten]
  exact hcount

/-- A degenerate instance: one customer, zero vehicles, zero capacity. -/
def exInstDeg : VRPInstance where
  depot := 0
  capacity := 0
  vehicle_count := 0
  vehicle_capacities := []
  demands := [(0, 0), (1, 1)]
  time_windows := []
  service_times := []
  dist := fun _ _ => 10

/-- Witness for C6: on `exInstDeg` (zero vehicles, so only the forced
fallback runs) customer 1 is assigned exactly once. -/
theorem construct_coverage_witness :
    ((construct exInstDeg).routes.map fun r => r.count 1).sum = 1 :=
  construct_coverage exInstDeg (by decide) (by decide) 1 (by decide)

/-! ### Clarke-Wright savings construction and the solver entry point
(src/algorithms/construction_heuristics.py, src/vrp_solver.py)

`SavingsAlgorithm` is embedded with association lists for the `routes`
(customer → route id) and `route_lists` (route id → customers) dicts;
`sorted(..., reverse=True)` becomes a stable descending sort. -/

/-- Embedding of `SavingsAlgorithm._calculate_savings`: one entry per
customer pair `(i, j)` with `i` before `j`, in iteration order. -/
def calculate_savings (inst : VRPInstance) : List ((Nat × Nat) × Int) :=
  let customers := (inst.demands.map Prod.fst).erase inst.depot
  (List.range customers.length).flatMap fun i =>
    (List.range' (i + 1) (customers.length - (i + 1))).map fun j =>
      let customer_i := customers.getD i 0
      let customer_j := customers.getD j 0
      ((customer_i, customer_j),
        inst.dist inst.depot customer_i + inst.dist inst.depot customer_j -
          inst.dist customer_i customer_j)

/-- Embedding of `SavingsAlgorithm._can_merge_routes`: combined load within
the homogeneous capacity, and both customers at an endpoint of their
route. -/
def can_merge_routes (inst : VRPInstance) (route1 route2 : List Nat)
    (customer_i customer_j : Nat) : Bool :=
  let load1 := (route1.map fun c => (inst.demands.lookup c).getD 0).sum
  let load2 := (route2.map fun c => (inst.demands.lookup c).getD 0).sum
  if load1 + load2 > inst.capacity then false
  else if (customer_i ≠ route1.head?.getD 0 ∧ customer_i ≠ route1.getLast?.getD 0) ∨
      (customer_j ≠ route2.head?.getD 0 ∧ customer_j ≠ route2.getLast?.getD 0) then
    false
  else true

/-- Embedding of `SavingsAlgorithm._merge_routes`: pick the orientation that
makes `customer_i` and `customer_j` adjacent. -/
def merge_routes (route1 route2 : List Nat) (customer_i customer_j : Nat) :
    List Nat :=
  if customer_i = route1.head?.getD 0 ∧ customer_j = route2.head?.getD 0 then
    route1.reverse ++ route2
  else if customer_i = route1.head?.getD 0 ∧ customer_j = route2.getLast?.getD 0 then
    route2 ++ route1.reverse
  else if customer_i = route1.getLast?.getD 0 ∧ customer_j = route2.head?.getD 0 then
    route1 ++ route2
  else if customer_i = route1.getLast?.getD 0 ∧ customer_j = route2.getLast?.getD 0 then
    route1 ++ route2.reverse
  else
    route1 ++ route2

/-- The merge loop of `SavingsAlgorithm.construct` (lines 145-165): walk the
sorted savings, stopping at the first nonpositive saving; skip same-route
pairs; merge when feasible, redirecting every customer of the absorbed route
and deleting it. -/
def savingsMergeLoop (inst : VRPInstance) :
    List ((Nat × Nat) × Int) → List (Nat × Nat) → List (Nat × List Nat) →
      List (Nat × Nat) × List (Nat × List Nat)
  | [], routes, route_lists => (routes, route_lists)
  | ((i, j), saving) :: rest, routes, route_lists =>
    if saving ≤ 0 then (routes, route_lists)
    else
      let route_i := (routes.lookup i).getD 0
      let route_j := (routes.lookup j).getD 0
      if route_i = route_j then savingsMergeLoop inst rest routes route_lists
      else
        let list_i := (route_lists.lookup route_i).getD []
        let list_j := (route_lists.lookup route_j).getD []
        if can_merge_routes inst list_i list_j i j then
          let new_route := merge_routes list_i list_j i j
          let routes' := list_j.foldl
            (fun rm customer => rm.map fun p =>
              if p.1 = customer then (p.1, route_i) else p) routes
          let route_lists' := (route_lists.map fun p =>
            if p.1 = route_i then (p.1, new_route) else p).filter
              fun p => p.1 ≠ route_j
          savingsMergeLoop inst rest routes' route_lists'
        else savingsMergeLoop inst rest routes route_lists

/-- Embedding of `SavingsAlgorithm.construct`: singleton routes, stable
descending sort of the savings, greedy merging, then depot-wrapped routes
and a final cost computation. -/
def savingsConstruct (inst : VRPInstance) : Solution :=
  let customers := (inst.demands.map Prod.fst).erase inst.depot
  let sorted_savings := (calculate_savings inst).insertionSort
    fun a b => b.2 < a.2
  let routes0 := customers.enum.map fun p => (p.2, p.1)
  let route_lists0 := customers.enum.map fun p => (p.1, [p.2])
  let r := savingsMergeLoop inst sorted_savings routes0 route_lists0
  let sol : Solution :=
    { instance? := some inst
      routes := (r.2.map Prod.snd).filterMap fun route_customers =>
        if route_customers.isEmpty then none
        else some (addRoute inst.depot
          ([inst.depot] ++ route_customers ++ [inst.depot])) }
  sol.calculate_cost.1

/-- Embedding of `VRPSolver._create_initial_solution`: greedy by default,
savings on request, greedy for anything else. -/
def create_initial_solution (inst : VRPInstance) (method : String) : Solution :=
  if method = "greedy" then construct inst
  else if method = "savings" then savingsConstruct inst
  else construct inst

/-- Embedding of `VRPSolver.solve` (lines 29-71): dispatch on the algorithm
name; the two metaheuristic drivers — whose behaviour depends on the random
source — are oracle parameters applied to the constructed initial solution;
an unrecognized name raises `ValueError`, modelled as `Except.error`. -/
def VRPSolver.solve (inst : VRPInstance)
    (saDriver tsDriver : Solution → Solution)
    (algorithm construction : String) : Except String Solution :=
  if algorithm = "simulated_annealing" then
    Except.ok (saDriver (create_initial_solution inst construction))
  else if algorithm = "tabu_search" then
    Except.ok (tsDriver (create_initial_solution inst construction))
  else if algorithm = "greedy" then
    Except.ok (construct inst).calculate_cost.1
  else if algorithm = "savings" then
    Except.ok (savingsConstruct inst).calculate_cost.1
  else
    Except.error ("Unknown algorithm: " ++ algorithm)

/-- C4 counterexample: on the degenerate instance `exInstDeg` (zero
vehicles, zero capacity) `VRPSolver.solve` does NOT fail fast: the greedy
run returns a solution whose forced-fallback route `[0, 1, 0]` shows the
construction heuristic executed. -/
theorem solve_degenerate_no_error_cex :
    (VRPSolver.solve exInstDeg id id "greedy" "greedy").isOk = true ∧
      (VRPSolver.solve exInstDeg id id "greedy" "greedy").toOption.map
        Solution.routes = some [[0, 1, 0]] := by
  constructor
  · decide
  · decide

/-- C4 amended: `VRPSolver.solve` fails fast exactly for unrecognized
algorithm names; degenerate instances (zero vehicles, zero capacity) are not
rejected — the dispatch never inspects the instance, and the construction
heuristics run on it. -/
theorem solve_error_iff_unknown_algorithm (inst : VRPInstance)
    (saDriver tsDriver : Solution → Solution) (algorithm construction : String) :
    (VRPSolver.solve inst saDriver tsDriver algorithm construction).isOk = true ↔
      (algorithm = "simulated_annealing" ∨ algorithm = "tabu_search" ∨
        algorithm = "greedy" ∨ algorithm = "savings") := by
  unfold VRPSolver.solve
  split_ifs <;> simp_all [Except.isOk, Except.toBool]

/-! ### Neighborhood operators on the object graph (frame property)

To state that `_generate_neighbor` leaves the input solution untouched, the
Python object graph is made explicit: a store maps addresses to route lists
(`inner` cells, one per Python list of node ids) and to routes objects
(`outer` cells, one per `Solution.routes` list, holding the addresses of its
route lists). `Solution.copy`'s `copy.deepcopy(self.routes)` allocates fresh
cells for both levels; the operators' in-place list mutations
(`route[pos] = c`, `pop`, `insert`) are writes to `inner` cells, and slot
assignments (`solution.routes[idx] = new_list`) are writes to the `outer`
cell. The `random.*` draws are explicit choice parameters, reduced into
range exactly as `randint`/`sample` bounds demand. -/

structure Store where
  next : Nat
  inner : Nat → List Nat
  outer : Nat → List Nat

/-- A Python `Solution` seen as a reference to its routes object. -/
structure SolutionRef where
  routesRef : Nat

def Store.allocInner (st : Store) (v : List Nat) : Nat × Store :=
  (st.next,
    { st with
        next := st.next + 1
        inner := fun a => if a = st.next then v else st.inner a })

def Store.allocOuter (st : Store) (refs : List Nat) : Nat × Store :=
  (st.next,
    { st with
        next := st.next + 1
        outer := fun a => if a = st.next then refs else st.outer a })

def Store.writeInner (st : Store) (a : Nat) (v : List Nat) : Store :=
  { st with inner := fun b => if b = a then v else st.inner b }

def Store.writeOuter (st : Store) (a : Nat) (refs : List Nat) : Store :=
  { st with outer := fun b => if b = a then refs else st.outer b }

/-- Dereference a solution's route lists (`solution.routes` as values). -/
def readRoutes (st : Store) (s : SolutionRef) : List (List Nat) :=
  (st.outer s.routesRef).map st.inner

/-- Deep copy of the route lists: a fresh inner cell per route. -/
def copyRoutesAux : Store → List Nat → List Nat × Store
  | st, [] => ([], st)
  | st, r :: rest =>
    let a := st.allocInner (st.inner r)
    let rec0 := copyRoutesAux a.2 rest
    (a.1 :: rec0.1, rec0.2)

/-- Embedding of `Solution.copy` (restricted to the `routes` object, the
only state the operators touch): `copy.deepcopy(self.routes)` allocates a
fresh outer cell pointing at fresh inner cells. -/
def copyRef (st : Store) (s : SolutionRef) : SolutionRef × Store :=
  let c := copyRoutesAux st (st.outer s.routesRef)
  let o := c.2.allocOuter c.1
  (⟨o.1⟩, o.2)

/-- The `(route_idx, pos, customer)` triples collected by `_swap_customers`
(lines 130-134): every non-depot occurrence in iteration order. -/
def allCustomersOf (depot : Nat) (routes : List (List Nat)) :
    List (Nat × Nat × Nat) :=
  (List.range routes.length).flatMap fun route_idx =>
    let route := routes.getD route_idx []
    (List.range route.length).filterMap fun pos =>
      let customer := route.getD pos 0
      if customer ≠ depot then some (route_idx, pos, customer) else none

/-- Embedding of `SimulatedAnnealing._swap_customers`: exchange the node ids
of two distinct random customer occurrences in place. -/
def swap_customers (inst : VRPInstance) (st : Store) (s : SolutionRef)
    (c1 c2 : Nat) : Store :=
  let routes := readRoutes st s
  if routes.length < 1 then st
  else
    let all_customers := allCustomersOf inst.depot routes
    if all_customers.length < 2 then st
    else
      let i := c1 % all_customers.length
      let j0 := c2 % (all_customers.length - 1)
      let j := if j0 ≥ i then j0 + 1 else j0
      let pick1 := all_customers.getD i (0, 0, 0)
      let pick2 := all_customers.getD j (0, 0, 0)
      let ref1 := (st.outer s.routesRef).getD pick1.1 0
      let st1 := st.writeInner ref1 ((st.inner ref1).set pick1.2.1 pick2.2.2)
      let ref2 := (st1.outer s.routesRef).getD pick2.1 0
      st1.writeInner ref2 ((st1.inner ref2).set pick2.2.1 pick1.2.2)

/-- Embedding of `SimulatedAnnealing._relocate_customer`: pop a random
customer from a random route and insert it at a random non-depot position of
a random target route (possibly the same, read after the pop). -/
def relocate_customer (inst : VRPInstance) (st : Store) (s : SolutionRef)
    (c1 c2 c3 c4 : Nat) : Store :=
  let routes := readRoutes st s
  if routes.length < 1 then st
  else
    let source_route_idx := c1 % routes.length
    let sref := (st.outer s.routesRef).getD source_route_idx 0
    let source_route := st.inner sref
    let customer_positions := (List.range source_route.length).filterMap fun pos =>
      if source_route.getD pos 0 ≠ inst.depot then some pos else none
    if customer_positions.isEmpty then st
    else
      let source_pos := customer_positions.getD (c2 % customer_positions.length) 0
      let customer := source_route.getD source_pos 0
      let st1 := st.writeInner sref (source_route.eraseIdx source_pos)
      let target_route_idx := c3 % routes.length
      let tref := (st1.outer s.routesRef).getD target_route_idx 0
      let target_route := st1.inner tref
      let target_pos := if target_route.length ≤ 2 then 1
        else 1 + c4 % (target_route.length - 1)
      st1.writeInner tref (target_route.insertIdx target_pos customer)

/-- Embedding of `SimulatedAnnealing._two_opt`: reverse a random inner
segment of a random route of length at least 4; the Python slot assignment
`solution.routes[route_idx] = ...` builds a new list object. -/
def two_opt (inst : VRPInstance) (st : Store) (s : SolutionRef)
    (c1 c2 c3 : Nat) : Store :=
  let routes := readRoutes st s
  if routes.isEmpty then st
  else
    let route_idx := c1 % routes.length
    let ref := (st.outer s.routesRef).getD route_idx 0
    let route := st.inner ref
    if route.length < 4 then st
    else
      let i := 1 + c2 % (route.length - 3)
      let j := i + 1 + c3 % (route.length - 2 - i)
      let new_route := route.take i ++ ((route.drop i).take (j + 1 - i)).reverse ++
        route.drop (j + 1)
      let a := st.allocInner new_route
      a.2.writeOuter s.routesRef ((a.2.outer s.routesRef).set route_idx a.1)

/-- Embedding of `SimulatedAnnealing._cross_exchange`: swap interior
segments between two distinct routes of length above 2, through two slot
assignments building new list objects. -/
def cross_exchange (inst : VRPInstance) (st : Store) (s : SolutionRef)
    (c1 c2 c3 c4 c5 c6 : Nat) : Store :=
  let routes := readRoutes st s
  if routes.length < 2 then st
  else
    let i := c1 % routes.length
    let j0 := c2 % (routes.length - 1)
    let route1_idx := i
    let route2_idx := if j0 ≥ i then j0 + 1 else j0
    let ref1 := (st.outer s.routesRef).getD route1_idx 0
    let ref2 := (st.outer s.routesRef).getD route2_idx 0
    let route1 := st.inner ref1
    let route2 := st.inner ref2
    if route1.length ≤ 2 ∨ route2.length ≤ 2 then st
    else
      let start1 := 1 + c3 % (route1.length - 2)
      let end1 := start1 + c4 % (route1.length - 1 - start1)
      let segment1 := (route1.drop start1).take (end1 + 1 - start1)
      let start2 := 1 + c5 % (route2.length - 2)
      let end2 := start2 + c6 % (route2.length - 1 - start2)
      let segment2 := (route2.drop start2).take (end2 + 1 - start2)
      let new_route1 := route1.take start1 ++ segment2 ++ route1.drop (end1 + 1)
      let new_route2 := route2.take start2 ++ segment1 ++ route2.drop (end2 + 1)
      let a1 := st.allocInner new_route1
      let a2 := a1.2.allocInner new_route2
      let st2 := a2.2.writeOuter s.routesRef
        ((a2.2.outer s.routesRef).set route1_idx a1.1)
      st2.writeOuter s.routesRef ((st2.outer s.routesRef).set route2_idx a2.1)

/-- Embedding of `SimulatedAnnealing._generate_neighbor`: copy the solution,
then apply the operator drawn by `random.choices` (weights 0.3/0.3/0.2/0.2,
abstracted into the draw `op % 4`) to the copy. -/
def generate_neighbor (inst : VRPInstance) (st : Store) (solution : SolutionRef)
    (op c1 c2 c3 c4 c5 c6 : Nat) : SolutionRef × Store :=
  let cp := copyRef st solution
  let neighbor := cp.1
  let st1 := cp.2
  let st2 :=
    if op % 4 = 0 then swap_customers inst st1 neighbor c1 c2
    else if op % 4 = 1 then relocate_customer inst st1 neighbor c1 c2 c3 c4
    else if op % 4 = 2 then two_opt inst st1 neighbor c1 c2 c3
    else cross_exchange inst st1 neighbor c1 c2 c3 c4 c5 c6
  (neighbor, st2)

/-- Cells below `N` (the original object graph) are untouched. -/
def preservesBelow (st st' : Store) (N : Nat) : Prop :=
  ∀ a, a < N → st'.inner a = st.inner a ∧ st'.outer a = st.outer a

lemma preservesBelow_refl (st : Store) (N : Nat) : preservesBelow st st N :=
  fun _ _ => ⟨rfl, rfl⟩

lemma preservesBelow_trans {st1 st2 st3 : Store} {N : Nat}
    (h1 : preservesBelow st1 st2 N) (h2 : preservesBelow st2 st3 N) :
    preservesBelow st1 st3 N :=
  fun a ha => ⟨(h2 a ha).1.trans (h1 a ha).1, (h2 a ha).2.trans (h1 a ha).2⟩

lemma writeInner_preserves (st : Store) (r : Nat) (v : List Nat) (N : Nat)
    (h : N ≤ r) : preservesBelow st (st.writeInner r v) N := by
  intro a ha
  refine ⟨?_, rfl⟩
  show (if a = r then v else st.inner a) = st.inner a
  rw [if_neg (by omega)]

lemma writeOuter_preserves (st : Store) (r : Nat) (refs : List Nat) (N : Nat)
    (h : N ≤ r) : preservesBelow st (st.writeOuter r refs) N := by
  intro a ha
  refine ⟨rfl, ?_⟩
  show (if a = r then refs else st.outer a) = st.outer a
  rw [if_neg (by omega)]

lemma allocInner_preserves (st : Store) (v : List Nat) (N : Nat)
    (h : N ≤ st.next) : preservesBelow st (st.allocInner v).2 N := by
  intro a ha
  refine ⟨?_, rfl⟩
  show (if a = st.next then v else st.inner a) = st.inner a
  rw [if_neg (by omega)]

lemma allocOuter_preserves (st : Store) (refs : List Nat) (N : Nat)
    (h : N ≤ st.next) : preservesBelow st (st.allocOuter refs).2 N := by
  intro a ha
  refine ⟨rfl, ?_⟩
  show (if a = st.next then refs else st.outer a) = st.outer a
  rw [if_neg (by omega)]

lemma copyRoutesAux_spec (N : Nat) :
    ∀ (refs : List Nat) (st : Store), N ≤ st.next →
      preservesBelow st (copyRoutesAux st refs).2 N ∧
      st.next ≤ (copyRoutesAux st refs).2.next ∧
      ∀ r ∈ (copyRoutesAux st refs).1, st.next ≤ r := by
  intro refs
  induction refs with
  | nil =>
    intro st h
    exact ⟨preservesBelow_refl st N, le_rfl, by intro r hr; cases hr⟩
  | cons r rest ih =>
    intro st h
    have e : copyRoutesAux st (r :: rest) =
        ((st.allocInner (st.inner r)).1 ::
          (copyRoutesAux (st.allocInner (st.inner r)).2 rest).1,
         (copyRoutesAux (st.allocInner (st.inner r)).2 rest).2) := rfl
    rw [e]
    have hstep : (st.allocInner (st.inner r)).2.next = st.next + 1 := rfl
    obtain ⟨hp, hn, hr⟩ := ih (st.allocInner (st.inner r)).2 (by omega)
    refine ⟨preservesBelow_trans (allocInner_preserves st _ N (by omega)) hp, ?_, ?_⟩
    · show st.next ≤ (copyRoutesAux (st.allocInner (st.inner r)).2 rest).2.next
      omega
    intro x hx
    rcases List.mem_cons.mp hx with rfl | hx
    · exact le_rfl
    · have := hr x hx
      omega

lemma allocOuter_read (st : Store) (refs : List Nat) :
    (st.allocOuter refs).2.outer (st.allocOuter refs).1 = refs := by
  show (if st.next = st.next then refs else st.outer st.next) = refs
  rw [if_pos rfl]

lemma copyRef_spec (st : Store) (s : SolutionRef) (N : Nat) (hN : N ≤ st.next) :
    preservesBelow st (copyRef st s).2 N ∧
      st.next ≤ (copyRef st s).2.next ∧
      st.next ≤ (copyRef st s).1.routesRef ∧
      ∀ r ∈ (copyRef st s).2.outer (copyRef st s).1.routesRef, st.next ≤ r := by
  obtain ⟨hp, hn, hr⟩ := copyRoutesAux_spec N (st.outer s.routesRef) st hN
  have e : copyRef st s =
      (⟨(copyRoutesAux st (st.outer s.routesRef)).2.next⟩,
        ((copyRoutesAux st (st.outer s.routesRef)).2.allocOuter
          (copyRoutesAux st (st.outer s.routesRef)).1).2) := rfl
  rw [e]
  refine ⟨preservesBelow_trans hp (allocOuter_preserves _ _ N (by omega)), ?_, hn, ?_⟩
  · show st.next ≤ (copyRoutesAux st (st.outer s.routesRef)).2.next + 1
    omega
  · intro x hx
    have hx' : x ∈ ((copyRoutesAux st (st.outer s.routesRef)).2.allocOuter
        (copyRoutesAux st (st.outer s.routesRef)).1).2.outer
        ((copyRoutesAux st (st.outer s.routesRef)).2.allocOuter
          (copyRoutesAux st (st.outer s.routesRef)).1).1 := hx
    rw [allocOuter_read] at hx'
    exact hr x hx'

lemma getD_mem {α : Type} (l : List α) (i : Nat) (d : α) (h : i < l.length) :
    l.getD i d ∈ l := by
  rw [List.getD_eq_getElem l d h]
  exact List.getElem_mem h

lemma allCustomersOf_fst_lt (depot : Nat) (routes : List (List Nat)) :
    ∀ x ∈ allCustomersOf depot routes, x.1 < routes.length := by
  intro x hx
  unfold allCustomersOf at hx
  obtain ⟨ri, hri, hx2⟩ := List.mem_flatMap.mp hx
  rw [List.mem_range] at hri
  dsimp only [] at hx2
  obtain ⟨pos, _, hx3⟩ := List.mem_filterMap.mp hx2
  split_ifs at hx3 with hc
  cases hx3
  exact hri

lemma writeOuter_read (st : Store) (a : Nat) (refs : List Nat) :
    (st.writeOuter a refs).outer a = refs := by
  show (if a = a then refs else st.outer a) = refs
  rw [if_pos rfl]

lemma outer_getD_ge (st : Store) (s : SolutionRef) (N : Nat)
    (houter : ∀ r ∈ st.outer s.routesRef, N ≤ r) :
    ∀ idx, idx < (st.outer s.routesRef).length →
      N ≤ (st.outer s.routesRef).getD idx 0 :=
  fun idx hidx => houter _ (getD_mem _ idx 0 hidx)

lemma double_write_frame (st : Store) (s : SolutionRef) (N : Nat)
    (houter : ∀ r ∈ st.outer s.routesRef, N ≤ r)
    (idx1 idx2 : Nat) (h1 : idx1 < (st.outer s.routesRef).length)
    (h2 : idx2 < (st.outer s.routesRef).length) (v1 v2 : List Nat) :
    preservesBelow st
      ((st.writeInner ((st.outer s.routesRef).getD idx1 0) v1).writeInner
        (((st.writeInner ((st.outer s.routesRef).getD idx1 0) v1).outer
          s.routesRef).getD idx2 0) v2) N ∧
    ∀ r ∈ ((st.writeInner ((st.outer s.routesRef).getD idx1 0) v1).writeInner
        (((st.writeInner ((st.outer s.routesRef).getD idx1 0) v1).outer
          s.routesRef).getD idx2 0) v2).outer s.routesRef, N ≤ r :=
  ⟨preservesBelow_trans
    (writeInner_preserves _ _ _ N (outer_getD_ge st s N houter idx1 h1))
    (writeInner_preserves _ _ _ N (outer_getD_ge st s N houter idx2 h2)),
    fun r hr => houter r hr⟩

lemma swap_frame (inst : VRPInstance) (st : Store) (s : SolutionRef) (c1 c2 N : Nat)
    (hnext : N ≤ st.next) (hsref : N ≤ s.routesRef)
    (houter : ∀ r ∈ st.outer s.routesRef, N ≤ r) :
    preservesBelow st (swap_customers inst st s c1 c2) N ∧
      ∀ r ∈ (swap_customers inst st s c1 c2).outer s.routesRef, N ≤ r := by
  unfold swap_customers
  dsimp only []
  by_cases g1 : (readRoutes st s).length < 1
  · rw [if_pos g1]
    exact ⟨preservesBelow_refl st N, houter⟩
  rw [if_neg g1]
  by_cases g2 : (allCustomersOf inst.depot (readRoutes st s)).length < 2
  · rw [if_pos g2]
    exact ⟨preservesBelow_refl st N, houter⟩
  rw [if_neg g2]
  have hleneq : (readRoutes st s).length = (st.outer s.routesRef).length :=
    List.length_map _ _
  have hlen2 : 2 ≤ (allCustomersOf inst.depot (readRoutes st s)).length :=
    le_of_not_lt g2
  have hi : c1 % (allCustomersOf inst.depot (readRoutes st s)).length <
      (allCustomersOf inst.depot (readRoutes st s)).length :=
    Nat.mod_lt _ (by omega)
  have hj : (if c2 % ((allCustomersOf inst.depot (readRoutes st s)).length - 1) ≥
        c1 % (allCustomersOf inst.depot (readRoutes st s)).length
      then c2 % ((allCustomersOf inst.depot (readRoutes st s)).length - 1) + 1
      else c2 % ((allCustomersOf inst.depot (readRoutes st s)).length - 1)) <
      (allCustomersOf inst.depot (readRoutes st s)).length := by
    have h0 : c2 % ((allCustomersOf inst.depot (readRoutes st s)).length - 1) <
        (allCustomersOf inst.depot (readRoutes st s)).length - 1 :=
      Nat.mod_lt _ (by omega)
    split_ifs <;> omega
  refine double_write_frame st s N houter _ _ ?_ ?_ _ _
  · rw [← hleneq]
    exact allCustomersOf_fst_lt inst.depot (readRoutes st s) _ (getD_mem _ _ _ hi)
  · rw [← hleneq]
    exact allCustomersOf_fst_lt inst.depot (readRoutes st s) _ (getD_mem _ _ _ hj)

lemma relocate_frame (inst : VRPInstance) (st : Store) (s : SolutionRef)
    (c1 c2 c3 c4 N : Nat)
    (hnext : N ≤ st.next) (hsref : N ≤ s.routesRef)
    (houter : ∀ r ∈ st.outer s.routesRef, N ≤ r) :
    preservesBelow st (relocate_customer inst st s c1 c2 c3 c4) N ∧
      ∀ r ∈ (relocate_customer inst st s c1 c2 c3 c4).outer s.routesRef, N ≤ r := by
  unfold relocate_customer
  dsimp only []
  by_cases g1 : (readRoutes st s).length < 1
  · rw [if_pos g1]
    exact ⟨preservesBelow_refl st N, houter⟩
  rw [if_neg g1]
  by_cases g2 : (List.filterMap (fun pos =>
      if (st.inner ((st.outer s.routesRef).getD (c1 % (readRoutes st s).length) 0)).getD
          pos 0 ≠ inst.depot then some pos else none)
      (List.range (st.inner ((st.outer s.routesRef).getD
        (c1 % (readRoutes st s).length) 0)).length)).isEmpty
  · rw [if_pos g2]
    exact ⟨preservesBelow_refl st N, houter⟩
  rw [if_neg g2]
  have hleneq : (readRoutes st s).length = (st.outer s.routesRef).length :=
    List.length_map _ _
  have hlen1 : 1 ≤ (readRoutes st s).length := le_of_not_lt g1
  refine double_write_frame st s N houter _ _ ?_ ?_ _ _
  · rw [← hleneq]
    exact Nat.mod_lt _ (by omega)
  · rw [← hleneq]
    exact Nat.mod_lt _ (by omega)

lemma two_opt_frame (inst : VRPInstance) (st : Store) (s : SolutionRef)
    (c1 c2 c3 N : Nat)
    (hnext : N ≤ st.next) (hsref : N ≤ s.routesRef)
    (houter : ∀ r ∈ st.outer s.routesRef, N ≤ r) :
    preservesBelow st (two_opt inst st s c1 c2 c3) N ∧
      ∀ r ∈ (two_opt inst st s c1 c2 c3).outer s.routesRef, N ≤ r := by
  unfold two_opt
  dsimp only []
  by_cases g1 : (readRoutes st s).isEmpty
  · rw [if_pos g1]
    exact ⟨preservesBelow_refl st N, houter⟩
  rw [if_neg g1]
  by_cases g2 : (st.inner ((st.outer s.routesRef).getD
      (c1 % (readRoutes st s).length) 0)).length < 4
  · rw [if_pos g2]
    exact ⟨preservesBelow_refl st N, houter⟩
  rw [if_neg g2]
  refine ⟨preservesBelow_trans (allocInner_preserves st _ N hnext)
    (writeOuter_preserves _ _ _ N hsref), ?_⟩
  intro r hr
  rw [writeOuter_read] at hr
  rcases List.mem_or_eq_of_mem_set hr with hr | rfl
  · exact houter r hr
  · exact hnext

lemma cross_exchange_frame (inst : VRPInstance) (st : Store) (s : SolutionRef)
    (c1 c2 c3 c4 c5 c6 N : Nat)
    (hnext : N ≤ st.next) (hsref : N ≤ s.routesRef)
    (houter : ∀ r ∈ st.outer s.routesRef, N ≤ r) :
    preservesBelow st (cross_exchange inst st s c1 c2 c3 c4 c5 c6) N ∧
      ∀ r ∈ (cross_exchange inst st s c1 c2 c3 c4 c5 c6).outer s.routesRef, N ≤ r := by
  unfold cross_exchange
  dsimp only []
  by_cases g1 : (readRoutes st s).length < 2
  · rw [if_pos g1]
    exact ⟨preservesBelow_refl st N, houter⟩
  rw [if_neg g1]
  by_cases g2 : (st.inner ((st.outer s.routesRef).getD (c1 % (readRoutes st s).length)
        0)).length ≤ 2 ∨
      (st.inner ((st.outer s.routesRef).getD
        (if c2 % ((readRoutes st s).length - 1) ≥ c1 % (readRoutes st s).length
          then c2 % ((readRoutes st s).length - 1) + 1
          else c2 % ((readRoutes st s).length - 1)) 0)).length ≤ 2
  · rw [if_pos g2]
    exact ⟨preservesBelow_refl st N, houter⟩
  rw [if_neg g2]
  refine ⟨preservesBelow_trans (allocInner_preserves st _ N hnext)
    (preservesBelow_trans (allocInner_preserves _ _ N (by
      show N ≤ st.next + 1
      omega))
      (preservesBelow_trans (writeOuter_preserves _ _ _ N hsref)
        (writeOuter_preserves _ _ _ N hsref))), ?_⟩
  intro r hr
  rw [writeOuter_read] at hr
  rcases List.mem_or_eq_of_mem_set hr with hr | rfl
  · rw [writeOuter_read] at hr
    rcases List.mem_or_eq_of_mem_set hr with hr | rfl
    · exact houter r hr
    · exact hnext
  · show N ≤ st.next + 1
    omega

/-- C9: `_generate_neighbor` builds the candidate on an independent full
copy: for every solution whose object graph lives below the allocation
frontier, and every operator draw and random choices, the input solution's
route lists read back unchanged, the neighbor is a different routes object,
and none of the neighbor's route-list cells is a cell of the original. -/
theorem generate_neighbor_frame (inst : VRPInstance) (st : Store) (s : SolutionRef)
    (op c1 c2 c3 c4 c5 c6 : Nat)
    (h1 : s.routesRef < st.next)
    (h2 : ∀ r ∈ st.outer s.routesRef, r < st.next) :
    readRoutes (generate_neighbor inst st s op c1 c2 c3 c4 c5 c6).2 s =
        readRoutes st s ∧
      (generate_neighbor inst st s op c1 c2 c3 c4 c5 c6).1.routesRef ≠ s.routesRef ∧
      ∀ r ∈ (generate_neighbor inst st s op c1 c2 c3 c4 c5 c6).2.outer
          (generate_neighbor inst st s op c1 c2 c3 c4 c5 c6).1.routesRef,
        r ∉ st.outer s.routesRef := by
  obtain ⟨hp1, hn1, hrr, hout1⟩ := copyRef_spec st s st.next le_rfl
  have e : generate_neighbor inst st s op c1 c2 c3 c4 c5 c6 =
      ((copyRef st s).1,
        if op % 4 = 0 then
          swap_customers inst (copyRef st s).2 (copyRef st s).1 c1 c2
        else if op % 4 = 1 then
          relocate_customer inst (copyRef st s).2 (copyRef st s).1 c1 c2 c3 c4
        else if op % 4 = 2 then
          two_opt inst (copyRef st s).2 (copyRef st s).1 c1 c2 c3
        else
          cross_exchange inst (copyRef st s).2 (copyRef st s).1 c1 c2 c3 c4 c5 c6) :=
    rfl
  rw [e]
  have key : preservesBelow (copyRef st s).2
      (if op % 4 = 0 then
        swap_customers inst (copyRef st s).2 (copyRef st s).1 c1 c2
      else if op % 4 = 1 then
        relocate_customer inst (copyRef st s).2 (copyRef st s).1 c1 c2 c3 c4
      else if op % 4 = 2 then
        two_opt inst (copyRef st s).2 (copyRef st s).1 c1 c2 c3
      else
        cross_exchange inst (copyRef st s).2 (copyRef st s).1 c1 c2 c3 c4 c5 c6)
        st.next ∧
      ∀ r ∈ (if op % 4 = 0 then
          swap_customers inst (copyRef st s).2 (copyRef st s).1 c1 c2
        else if op % 4 = 1 then
          relocate_customer inst (copyRef st s).2 (copyRef st s).1 c1 c2 c3 c4
        else if op % 4 = 2 then
          two_opt inst (copyRef st s).2 (copyRef st s).1 c1 c2 c3
        else
          cross_exchange inst (copyRef st s).2 (copyRef st s).1 c1 c2 c3 c4 c5
            c6).outer (copyRef st s).1.routesRef,
        st.next ≤ r := by
    split_ifs with o1 o2 o3
    · exact swap_frame inst _ _ c1 c2 st.next hn1 hrr hout1
    · exact relocate_frame inst _ _ c1 c2 c3 c4 st.next hn1 hrr hout1
    · exact two_opt_frame inst _ _ c1 c2 c3 st.next hn1 hrr hout1
    · exact cross_exchange_frame inst _ _ c1 c2 c3 c4 c5 c6 st.next hn1 hrr hout1
  have hcomp : preservesBelow st
      (if op % 4 = 0 then
        swap_customers inst (copyRef st s).2 (copyRef st s).1 c1 c2
      else if op % 4 = 1 then
        relocate_customer inst (copyRef st s).2 (copyRef st s).1 c1 c2 c3 c4
      else if op % 4 = 2 then
        two_opt inst (copyRef st s).2 (copyRef st s).1 c1 c2 c3
      else
        cross_exchange inst (copyRef st s).2 (copyRef st s).1 c1 c2 c3 c4 c5 c6)
        st.next := preservesBelow_trans hp1 key.1
  refine ⟨?_, ?_, ?_⟩
  · show ((_ : Store).outer s.routesRef).map _ = (st.outer s.routesRef).map st.inner
    rw [(hcomp s.routesRef h1).2]
    exact List.map_congr_left fun r hr => (hcomp r (h2 r hr)).1
  · show (copyRef st s).1.routesRef ≠ s.routesRef
    have := hrr
    omega
  · intro r hr hmem
    have hge := key.2 r hr
    have hlt := h2 r hmem
    omega

/-- A concrete two-cell object graph: one solution whose routes object (cell
1) holds one route list (cell 0). -/
def exStore : Store where
  next := 2
  inner := fun a => if a = 0 then [0, 1, 2, 0] else []
  outer := fun a => if a = 1 then [0] else []

/-- The concrete solution reference of `exStore`. -/
def exSolRef : SolutionRef := ⟨1⟩

/-- Witness for C9: a swap draw on the concrete store leaves the original
route list `[0, 1, 2, 0]` unchanged and yields a disjoint copy. -/
theorem generate_neighbor_frame_witness :
    readRoutes (generate_neighbor exInst exStore exSolRef 0 0 1 0 0 0 0).2 exSolRef =
        readRoutes exStore exSolRef ∧
      (generate_neighbor exInst exStore exSolRef 0 0 1 0 0 0 0).1.routesRef ≠
        exSolRef.routesRef ∧
      ∀ r ∈ (generate_neighbor exInst exStore exSolRef 0 0 1 0 0 0 0).2.outer
          (generate_neighbor exInst exStore exSolRef 0 0 1 0 0 0 0).1.routesRef,
        r ∉ exStore.outer exSolRef.routesRef :=
  generate_neighbor_frame exInst exStore exSolRef 0 0 1 0 0 0 0 (by decide) (by decide)

end VRP
